import Mathlib

/-!
Shallow embedding of `apps/rules/routing_rules.py` (superdesk-core):
the weekday calendar, the schedule evaluator `_get_scheduled_routing_rules`,
the scheme validators (`_validate_routing_scheme`, `_validate_schedule`,
`_check_if_rule_name_is_unique`, `_adjust_for_empty_schedules`, `on_create`,
`on_update`) and the routing orchestrator `apply_routing_scheme`.

Python dictionaries are embedded as structures whose fields record, where the
code distinguishes them, both key presence and the stored value; Python
exceptions raised during evaluation are embedded as `Option`/`Except`;
naive local datetimes are embedded as a day index since an epoch Monday plus
a second-of-day counter.
-/

namespace Routing

/-- A naive local datetime: `day` counts days from an epoch falling on a
Monday (so the weekday index is `day % 7`, Monday = 0, matching Python
`datetime.weekday()`), and `sod` is the second of the day. -/
structure LocalDT where
  day : Nat
  sod : Nat
  deriving DecidableEq, Repr

/-- Python `datetime.weekday()`: 0 = Monday .. 6 = Sunday. -/
def LocalDT.weekday (d : LocalDT) : Nat := d.day % 7

/-- Python `<=` on two naive datetimes sharing a time zone. -/
def ldtLE (a b : LocalDT) : Bool :=
  decide (a.day < b.day ∨ (a.day = b.day ∧ a.sod ≤ b.sod))

/-- Python `<` on two naive datetimes sharing a time zone. -/
def ldtLT (a b : LocalDT) : Bool :=
  decide (a.day < b.day ∨ (a.day = b.day ∧ a.sod < b.sod))

/-- `dt + timedelta(minutes=1)`, carrying over midnight. -/
def addMinute (d : LocalDT) : LocalDT :=
  if d.sod + 60 < 86400 then ⟨d.day, d.sod + 60⟩ else ⟨d.day + 1, d.sod + 60 - 86400⟩

/-! ### Parsing `"%H:%M:%S"` strings (Python `datetime.strptime`) -/

/-- Split a character list on `:` (the field separators of `%H:%M:%S`). -/
def splitColon : List Char → List (List Char)
  | [] => [[]]
  | c :: rest =>
    let r := splitColon rest
    if c = ':' then [] :: r
    else
      match r with
      | f :: t => (c :: f) :: t
      | [] => [[c]]

/-- Decimal value of a digit list. -/
def digitsVal (s : List Char) : Nat :=
  s.foldl (fun a c => a * 10 + (c.toNat - 48)) 0

/-- One `strptime` numeric field: one or two digits, value at most `mx`
(`%H` allows 0-23, `%M`/`%S` 0-59 for a constructible `datetime`). -/
def fieldNat? (s : List Char) (mx : Nat) : Option Nat :=
  if s = [] ∨ 2 < s.length ∨ ¬ (s.all Char.isDigit = true) then none
  else if digitsVal s ≤ mx then some (digitsVal s) else none

/-- `datetime.strptime(s, "%H:%M:%S")`, returning the parsed time of day in
seconds, or `none` where Python raises `ValueError`. -/
def parseHMS (s : String) : Option Nat :=
  match splitColon s.toList with
  | [h, m, sec] => do
    let hn ← fieldNat? h 23
    let mn ← fieldNat? m 59
    let sn ← fieldNat? sec 59
    pure (hn * 3600 + mn * 60 + sn)
  | _ => none

/-- `datetime.strptime(v, "%H:%M:%S")` applied to a value that may be the
Python `None` (where `strptime` raises `TypeError`, caught by the same
`except` blocks as a parse failure). -/
def parseHMSOpt (v : Option String) : Option Nat :=
  match v with
  | none => none
  | some s => parseHMS s

/-- Python string truthiness of a `dict.get` result: a present, non-empty
string. -/
def truthyS (v : Option String) : Bool :=
  match v with
  | none => false
  | some s => decide (s ≠ "")

/-- Python `s[-2:]` as a character list. -/
def lastTwo (s : String) : List Char :=
  s.toList.drop (s.toList.length - 2)

/-! ### The `Weekdays` enum -/

namespace Weekdays

/-- `Weekdays[day.upper()].value`: the ordinal of the day-name string after
upper-casing, or `none` where the Python `Enum` lookup raises `KeyError`. -/
def dayIndex? (day : String) : Option Nat :=
  let u := day.toList.map Char.toUpper
  if u = "MON".toList then some 0
  else if u = "TUE".toList then some 1
  else if u = "WED".toList then some 2
  else if u = "THU".toList then some 3
  else if u = "FRI".toList then some 4
  else if u = "SAT".toList then some 5
  else if u = "SUN".toList then some 6
  else none

/-- `Weekdays.is_valid_schedule`: all entries name one of the seven days. -/
def is_valid_schedule (list_of_days : List String) : Bool :=
  list_of_days.all (fun day => (dayIndex? day).isSome)

/-- The list comprehension `[Weekdays[day.upper()].value for day in days]`:
evaluates every entry, raising (`none`) at the first invalid name. -/
def lookupDays : List String → Option (List Nat)
  | [] => some []
  | d :: rest =>
    match dayIndex? d with
    | some i => (lookupDays rest).map (fun l => i :: l)
    | none => none

/-- `Weekdays.is_scheduled_day(today, list_of_days)`: whether today's weekday
index occurs among the indices of the named days; `none` models the
`KeyError` raised when a name is not one of the seven members. -/
def is_scheduled_day (today : LocalDT) (list_of_days : List String) : Option Bool :=
  (lookupDays list_of_days).map (fun idxs => decide (today.weekday ∈ idxs))

/-- `Weekdays.dayname(day)`. -/
def dayname (day : LocalDT) : String :=
  match day.weekday with
  | 0 => "MON"
  | 1 => "TUE"
  | 2 => "WED"
  | 3 => "THU"
  | 4 => "FRI"
  | 5 => "SAT"
  | _ => "SUN"

end Weekdays

/-! ### Dictionary models

The schedule dictionary records key presence per field (the code inspects
`schedule.keys()` and `len(schedule)`); the `hour_of_day_from` /
`hour_of_day_to` values are themselves optional because the Eve schema marks
them nullable, so a key may be present holding Python `None`. -/

structure SchedDict where
  day_of_week : Option (List String)
  hour_of_day_from : Option (Option String)
  hour_of_day_to : Option (Option String)
  time_zone : Option String
  deriving DecidableEq, Repr

/-- `len(schedule)`: the number of keys present. -/
def schedLen (d : SchedDict) : Nat :=
  (if d.day_of_week.isSome then 1 else 0) + (if d.hour_of_day_from.isSome then 1 else 0)
    + (if d.hour_of_day_to.isSome then 1 else 0) + (if d.time_zone.isSome then 1 else 0)

/-- The actions dictionary; each field is key-presence × (value or Python
`None`). Fetch/publish action lists are opaque to this module. -/
structure ActionsDict where
  fetch : Option (Option Unit)
  publish : Option (Option Unit)
  exit : Option (Option Bool)
  preserve_desk : Option (Option Bool)
  extra : Option (Option Unit)
  deriving DecidableEq, Repr

/-- `len(actions)`: the number of keys present. -/
def actLen (a : ActionsDict) : Nat :=
  (if a.fetch.isSome then 1 else 0) + (if a.publish.isSome then 1 else 0)
    + (if a.exit.isSome then 1 else 0) + (if a.preserve_desk.isSome then 1 else 0)
    + (if a.extra.isSome then 1 else 0)

/-- A routing rule dictionary. The known fields are stored as their
`rule.get(...)` views (the code never distinguishes a known key that is
absent from one stored as `None`, except for `schedule`, where both views
are falsy everywhere the code looks). `extra_keys` lists any further keys
of the underlying dictionary, in dictionary order. -/
structure RuleDict where
  name : Option String
  handler : Option String
  filter : Option String
  actions : Option ActionsDict
  schedule : Option SchedDict
  extra_keys : List String
  deriving DecidableEq, Repr

/-- A routing scheme dictionary (the fields validation reads). -/
structure SchemeDict where
  name : Option String
  rules : Option (List RuleDict)
  deriving DecidableEq, Repr

/-- `routing_scheme.get("rules", [])`. -/
def rulesGet (s : SchemeDict) : List RuleDict := s.rules.getD []

/-! ### Schedule evaluation (`_get_scheduled_routing_rules`) -/

/-- Modelled from the spec: `superdesk.utc.set_time` is not under `src/`;
per §4.2 and §6 it replaces the time-of-day of a datetime with the given
24-hour `HH:MM:SS` value, keeping the date, raising on an unparsable
string. -/
def set_time (d : LocalDT) (timeStr : String) : Option LocalDT :=
  (parseHMS timeStr).map (fun sec => ⟨d.day, sec⟩)

/-- `current_dt_utc.astimezone(tz=schedule_tz)` where
`schedule_tz = pytz.timezone(tz_name) if tz_name else pytz.utc`: pytz is an
external library, so the zone conversion is an abstract parameter `tzConv`
(only valid zone names reach it; an unknown name is rejected upstream by
validation). A falsy `tz_name` leaves the UTC instant unchanged. -/
def tzAdjust (tzConv : String → LocalDT → LocalDT) (tzName : Option String)
    (now : LocalDT) : LocalDT :=
  match tzName with
  | some tz => if tz = "" then now else tzConv tz now
  | none => now

/-- The body of the loop in `_get_scheduled_routing_rules` for one rule:
whether the rule is scheduled at `now` (a UTC instant), `none` modelling an
exception escaping the loop (unparsable time string, invalid day name). -/
def is_scheduled (tzConv : String → LocalDT → LocalDT) (now : LocalDT)
    (r : RuleDict) : Option Bool :=
  match r.schedule with
  | some d =>
    if 0 < schedLen d then
      let adjNow := tzAdjust tzConv d.time_zone now
      let fromStr :=
        match d.hour_of_day_from.join with
        | some s => if s = "" then "00:00:00" else s
        | none => "00:00:00"
      match set_time adjNow fromStr with
      | none => none
      | some fromT =>
        match
          (match d.hour_of_day_to.join with
          | some s =>
            if s ≠ "" then
              (set_time adjNow s).map (fun t => if lastTwo s = "00".toList then addMinute t else t)
            else (set_time adjNow "23:59:59").map addMinute
          | none => (set_time adjNow "23:59:59").map addMinute) with
        | none => none
        | some toT =>
          match Weekdays.is_scheduled_day adjNow (d.day_of_week.getD []) with
          | none => none
          | some dayM => some (dayM && (ldtLE fromT adjNow && ldtLT adjNow toT))
    else some true
  | none => some true

/-- `_get_scheduled_routing_rules(rules, current_dt_utc)`: the sub-sequence
of rules scheduled at `now`; `none` models an exception escaping the loop. -/
def _get_scheduled_routing_rules (tzConv : String → LocalDT → LocalDT)
    (rules : List RuleDict) (now : LocalDT) : Option (List RuleDict) :=
  match rules with
  | [] => some []
  | r :: rest =>
    match is_scheduled tzConv now r with
    | none => none
    | some s =>
      match _get_scheduled_routing_rules tzConv rest now with
      | none => none
      | some restS => some (if s then r :: restS else restS)

/-! ### Validation -/

/-- The distinct `SuperdeskApiError.badRequestError` / `forbiddenError`
raise sites of the service, one constructor per message. -/
inductive ValErr where
  | emptyScheme
  | invalidRuleFields (fields : List String)
  | missingRuleName
  | missingActions
  | emptySchedule
  | invalidDayOfWeek
  | invalidFromTime
  | invalidToTime
  | fromAfterTo
  | unknownTimeZone
  | duplicateRuleName
  deriving DecidableEq, Repr

/-- The time zones of `pytz.all_timezones_set` (an external database; a
small concrete fragment suffices for this development). -/
def all_timezones_set : List String :=
  ["UTC", "Europe/Prague", "Europe/London", "Australia/Sydney", "US/Eastern"]

/-- The trailing time-zone check of `_validate_schedule`. -/
def checkTimeZone (d : SchedDict) : Except ValErr Unit :=
  match d.time_zone with
  | some tz =>
    if tz ≠ "" ∧ tz ∉ all_timezones_set then .error .unknownTimeZone else .ok ()
  | none => .ok ()

/-- `RoutingRuleSchemeService._validate_schedule(schedule)`. -/
def _validate_schedule : Option SchedDict → Except ValErr Unit
  | none => .ok ()
  | some d =>
    if schedLen d = 0 ∨ d.day_of_week = none ∨ d.day_of_week.getD [] = [] then
      .error .emptySchedule
    else if ¬ (Weekdays.is_valid_schedule (d.day_of_week.getD []) = true) then
      .error .invalidDayOfWeek
    else if truthyS d.hour_of_day_from.join ∨ truthyS d.hour_of_day_to.join then
      match parseHMSOpt d.hour_of_day_from.join with
      | none => .error .invalidFromTime
      | some fromT =>
        if truthyS d.hour_of_day_to.join then
          match parseHMSOpt d.hour_of_day_to.join with
          | none => .error .invalidToTime
          | some toT =>
            if fromT > toT then .error .fromAfterTo else checkTimeZone d
        else checkTimeZone d
    else checkTimeZone d

/-- The list comprehension over `routing_rule.keys()` selecting keys outside
the five permitted rule fields. -/
def invalidFieldsOf (r : RuleDict) : List String :=
  r.extra_keys.filter
    (fun field => decide (field ∉ ["name", "handler", "filter", "actions", "schedule"]))

/-- The `actions is None or len(actions) == 0 or (actions.get("fetch") is
None and actions.get("publish") is None and actions.get("exit") is None)`
test of `_validate_routing_scheme`. -/
def actionsMissing (r : RuleDict) : Bool :=
  match r.actions with
  | none => true
  | some a =>
    decide (actLen a = 0)
      || (decide (a.fetch.join = none) && decide (a.publish.join = none)
            && decide (a.exit.join = none))

/-- The body of the per-rule loop of `_validate_routing_scheme`. -/
def validate_rule (r : RuleDict) : Except ValErr Unit :=
  if invalidFieldsOf r ≠ [] then .error (.invalidRuleFields (invalidFieldsOf r))
  else if r.name = none then .error .missingRuleName
  else if actionsMissing r then .error .missingActions
  else _validate_schedule r.schedule

/-- The rule loop of `_validate_routing_scheme`: rules are validated one at
a time, in order, stopping at the first raised error. -/
def validateRules : List RuleDict → Except ValErr Unit
  | [] => .ok ()
  | r :: rest =>
    match validate_rule r with
    | .error e => .error e
    | .ok _ => validateRules rest

/-- `RoutingRuleSchemeService._validate_routing_scheme(routing_scheme)`. -/
def _validate_routing_scheme (s : SchemeDict) : Except ValErr Unit :=
  if rulesGet s = [] then .error .emptyScheme else validateRules (rulesGet s)

/-- `RoutingRuleSchemeService._check_if_rule_name_is_unique(routing_scheme)`:
raises at the first rule whose name occurs more than once. -/
def _check_if_rule_name_is_unique (s : SchemeDict) : Except ValErr Unit :=
  if (rulesGet s).any (fun r =>
      decide (1 < ((rulesGet s).filter (fun r2 => decide (r2.name = r.name))).length)) then
    .error .duplicateRuleName
  else .ok ()

/-- The per-rule body of `_adjust_for_empty_schedules`: a truthy schedule
whose key set is exactly `{"time_zone"}` is replaced by `None`; a truthy
schedule lacking the `time_zone` key gains `time_zone = "UTC"`. -/
def adjustRule (r : RuleDict) : RuleDict :=
  match r.schedule with
  | some d =>
    if 0 < schedLen d then
      if d.day_of_week = none ∧ d.hour_of_day_from = none ∧ d.hour_of_day_to = none
          ∧ d.time_zone.isSome = true then
        { r with schedule := none }
      else if d.time_zone = none then
        { r with schedule := some { d with time_zone := some "UTC" } }
      else r
    else r
  | none => r

/-- `RoutingRuleSchemeService._adjust_for_empty_schedules(routing_scheme)`. -/
def _adjust_for_empty_schedules (s : SchemeDict) : SchemeDict :=
  { s with rules := s.rules.map (fun rs => rs.map adjustRule) }

/-- `RoutingRuleSchemeService.on_create` for one document of `docs`: adjust
empty schedules, validate the scheme, check rule-name uniqueness; the
document (mutated in place in Python) is returned on success. -/
def on_create (s : SchemeDict) : Except ValErr SchemeDict :=
  match _validate_routing_scheme (_adjust_for_empty_schedules s) with
  | .error e => .error e
  | .ok _ =>
    match _check_if_rule_name_is_unique (_adjust_for_empty_schedules s) with
    | .error e => .error e
    | .ok _ => .ok (_adjust_for_empty_schedules s)

/-- `RoutingRuleSchemeService.on_update(updates, original)`: the same
pipeline applied to `updates` (`original` is not consulted). -/
def on_update (updates : SchemeDict) (_original : SchemeDict) :
    Except ValErr SchemeDict :=
  match _validate_routing_scheme (_adjust_for_empty_schedules updates) with
  | .error e => .error e
  | .ok _ =>
    match _check_if_rule_name_is_unique (_adjust_for_empty_schedules updates) with
    | .error e => .error e
    | .ok _ => .ok (_adjust_for_empty_schedules updates)

/-! ### The routing orchestrator (`apply_routing_scheme`)

The external collaborators — the handler registry
(`get_routing_rule_handler(rule).can_handle` / `.apply_rule`, from
`rule_handlers`, outside `src/`) and the content-filter matcher
(`filters_service.does_match`) — are abstract oracles over the rule (the
item, provider and scheme are fixed for one routing pass). `apply_rule`
side effects are recorded as a trace of events; a raised handler failure is
`fails rule = some msg`. -/

/-- One observable interaction of the orchestrator with its collaborators. -/
inductive REv where
  | canHandleQ (r : RuleDict)
  | doesMatchQ (r : RuleDict)
  | applyR (r : RuleDict)
  deriving DecidableEq, Repr

/-- How one routing pass ended. -/
inductive Outcome where
  | completed
  | exited
  | failed (msg : String)
  deriving DecidableEq, Repr

/-- `rule.get("actions", {}).get("exit", False)` truthiness. -/
def exitFlag (r : RuleDict) : Bool :=
  match r.actions with
  | some a => (a.exit.join).getD false
  | none => false

/-- The loop of `apply_routing_scheme` over the scheduled rules: emits the
collaborator interactions in order; a failure raised by `apply_rule`
propagates at once, evaluating no further rule. -/
def runRules (canH doesM : RuleDict → Bool) (fails : RuleDict → Option String) :
    List RuleDict → List REv × Outcome
  | [] => ([], .completed)
  | r :: rest =>
    if canH r then
      if doesM r then
        match fails r with
        | some e => ([.canHandleQ r, .doesMatchQ r, .applyR r], .failed e)
        | none =>
          if exitFlag r then ([.canHandleQ r, .doesMatchQ r, .applyR r], .exited)
          else
            let (t, o) := runRules canH doesM fails rest
            (.canHandleQ r :: .doesMatchQ r :: .applyR r :: t, o)
      else
        let (t, o) := runRules canH doesM fails rest
        (.canHandleQ r :: .doesMatchQ r :: t, o)
    else
      let (t, o) := runRules canH doesM fails rest
      (.canHandleQ r :: t, o)

/-- `RoutingRuleSchemeService.apply_routing_scheme(ingest_item, provider,
routing_scheme)` at the UTC instant `now`: filter the rules through
`_get_scheduled_routing_rules`, then run the scheduled rules in order.
`none` models an exception escaping the schedule filter. -/
def apply_routing_scheme (tzConv : String → LocalDT → LocalDT)
    (canH doesM : RuleDict → Bool) (fails : RuleDict → Option String)
    (scheme : SchemeDict) (now : LocalDT) : Option (List REv × Outcome) :=
  (_get_scheduled_routing_rules tzConv (rulesGet scheme) now).map
    (runRules canH doesM fails)

/-! ### Concrete example inputs -/

/-- The identity zone conversion (the `UTC` zone). -/
def tzId : String → LocalDT → LocalDT := fun _ d => d

/-- A handler accepting every item. -/
def canAlways : RuleDict → Bool := fun _ => true

/-- A handler rejecting every item. -/
def canNever : RuleDict → Bool := fun _ => false

/-- A content filter matching every item. -/
def matchAlways : RuleDict → Bool := fun _ => true

/-- Handlers whose `apply_rule` never raises. -/
def noFailures : RuleDict → Option String := fun _ => none

/-- Actions `{"exit": True}`. -/
def exitActs : ActionsDict := ⟨none, none, some (some true), none, none⟩

/-- Actions `{"fetch": [...]}` (no exit). -/
def fetchActs : ActionsDict := ⟨some (some ()), none, none, none, none⟩

/-- A 09:00:00-17:00:00 Monday schedule in UTC terms (no time-zone key). -/
def schedC1 : SchedDict := ⟨some ["mon"], some (some "09:00:00"), some (some "17:00:00"), none⟩

/-- A rule carrying `schedC1`. -/
def ruleC1 : RuleDict := ⟨some "r1", none, none, some fetchActs, some schedC1, []⟩

/-- A rule whose schedule names an unrecognized day. -/
def c2rule1 : RuleDict :=
  ⟨some "rule one", none, none, some exitActs, some ⟨some ["xyz"], none, none, some "UTC"⟩, []⟩

/-- A rule missing its name. -/
def c2rule2 : RuleDict := ⟨none, none, none, some exitActs, none, []⟩

/-- A scheme whose first rule has an invalid schedule and whose second rule
is missing its name. -/
def c2scheme : SchemeDict := ⟨some "scheme", some [c2rule1, c2rule2]⟩

/-- Unscheduled rule `A`, no exit action. -/
def ruleA : RuleDict := ⟨some "A", none, none, some fetchActs, none, []⟩

/-- Unscheduled rule `B`, exit action. -/
def ruleB : RuleDict := ⟨some "B", none, none, some exitActs, none, []⟩

/-- Unscheduled rule `C`, no exit action. -/
def ruleC : RuleDict := ⟨some "C", none, none, some fetchActs, none, []⟩

/-- A rule whose schedule is exactly `{"time_zone": "UTC"}`. -/
def ruleOnlyTZ : RuleDict :=
  ⟨some "r", none, none, some fetchActs, some ⟨none, none, none, some "UTC"⟩, []⟩

/-- A rule whose schedule lacks the `time_zone` key. -/
def ruleNoTZ : RuleDict :=
  ⟨some "r", none, none, some fetchActs, some ⟨some ["mon"], none, none, none⟩, []⟩

/-- A schedule covering all seven days with no hour bounds. -/
def schedAll : SchedDict :=
  ⟨some ["mon", "tue", "wed", "thu", "fri", "sat", "sun"], none, none, some "UTC"⟩

/-- A rule carrying `schedAll`. -/
def ruleAll : RuleDict := ⟨some "w", none, none, some fetchActs, some schedAll, []⟩

/-- A valid rule named `"x"`. -/
def ruleX : RuleDict := ⟨some "x", none, none, some exitActs, none, []⟩

/-- A scheme repeating the rule name `"x"`. -/
def dupScheme : SchemeDict := ⟨some "s", some [ruleX, ruleX]⟩

/-- Handlers where the rule `A` handler raises `"boom"` from `apply_rule`. -/
def failsOnA : RuleDict → Option String := fun r => if r = ruleA then some "boom" else none

/-- A schedule giving only an end time (`hour_of_day_from` absent). -/
def schedToOnly : SchedDict := ⟨some ["mon"], none, some (some "10:00:00"), some "UTC"⟩

/-! ### Helper lemmas -/

/-- On a list of valid day names, the index-lookup comprehension succeeds
and returns exactly the indices. -/
theorem lookupDays_of_valid (days : List String)
    (h : Weekdays.is_valid_schedule days = true) :
    Weekdays.lookupDays days = some (days.filterMap Weekdays.dayIndex?) := by
  induction days with
  | nil => rfl
  | cons d rest ih =>
    simp only [Weekdays.is_valid_schedule, List.all_cons, Bool.and_eq_true] at h
    obtain ⟨i, hi⟩ := Option.isSome_iff_exists.mp h.1
    have ih2 := ih h.2
    simp [Weekdays.lookupDays, hi, ih2, List.filterMap_cons]

/-! ### Claims -/

/-- C3 (counterexample): `Weekdays.is_scheduled_day` does not return a
boolean on every input: on the list `["xyz"]`, whose entry is not one of the
seven canonical day names, the `Enum` lookup raises `KeyError` (embedded as
`none`) instead of returning `false`. -/
theorem C3_counterexample :
    Weekdays.is_scheduled_day ⟨0, 0⟩ ["xyz"] = none := by rfl

/-- C3 (amended): for every datetime and every list of valid canonical day
names, `Weekdays.is_scheduled_day` returns a boolean that is true iff the
datetime's weekday index is among the indices of the named days; when the
list contains a name that is not one of the seven canonical day names it
raises `KeyError` instead of returning a value. -/
theorem C3_is_scheduled_day_total_on_valid (d : LocalDT) (days : List String)
    (h : Weekdays.is_valid_schedule days = true) :
    Weekdays.is_scheduled_day d days
      = some (decide (d.weekday ∈ days.filterMap Weekdays.dayIndex?)) := by
  unfold Weekdays.is_scheduled_day
  rw [lookupDays_of_valid days h]
  rfl

/-- C3 (witness): the amended theorem at the epoch Monday and `["mon"]`. -/
theorem C3_witness :
    Weekdays.is_valid_schedule ["mon"] = true
    ∧ Weekdays.is_scheduled_day ⟨0, 0⟩ ["mon"]
        = some (decide ((⟨0, 0⟩ : LocalDT).weekday
            ∈ (["mon"].filterMap Weekdays.dayIndex?))) :=
  ⟨by decide, C3_is_scheduled_day_total_on_valid ⟨0, 0⟩ ["mon"] (by decide)⟩

/-- C6: empty-schedule normalization: a rule whose schedule is exactly
`{"time_zone": "UTC"}` has its schedule collapsed to absent; a rule with no
schedule is left unchanged (idempotent); a rule with a non-empty schedule
lacking the `time_zone` key gains `time_zone = "UTC"` and nothing else
changes. -/
theorem C6_adjust_for_empty_schedules (nm : Option String) (r : RuleDict) :
    (r.schedule = some ⟨none, none, none, some "UTC"⟩ →
        rulesGet (_adjust_for_empty_schedules ⟨nm, some [r]⟩)
          = [{ r with schedule := none }])
    ∧ (r.schedule = none →
        rulesGet (_adjust_for_empty_schedules ⟨nm, some [r]⟩) = [r])
    ∧ (∀ d : SchedDict, r.schedule = some d → d.time_zone = none → 0 < schedLen d →
        rulesGet (_adjust_for_empty_schedules ⟨nm, some [r]⟩)
          = [{ r with schedule := some { d with time_zone := some "UTC" } }]) := by
  refine ⟨fun h => ?_, fun h => ?_, fun d h htz hlen => ?_⟩
  · simp [rulesGet, _adjust_for_empty_schedules, adjustRule, h, schedLen]
  · simp [rulesGet, _adjust_for_empty_schedules, adjustRule, h]
  · have h1 : ¬ (d.day_of_week = none ∧ d.hour_of_day_from = none
        ∧ d.hour_of_day_to = none ∧ d.time_zone.isSome = true) := by
      rintro ⟨-, -, -, hs⟩
      rw [htz] at hs
      exact absurd hs (by simp)
    simp [rulesGet, _adjust_for_empty_schedules, adjustRule, h, hlen, h1, htz]

/-- C6 (witness): the three normalization facts at concrete rules. -/
theorem C6_witness :
    rulesGet (_adjust_for_empty_schedules ⟨some "s", some [ruleOnlyTZ]⟩)
        = [{ ruleOnlyTZ with schedule := none }]
    ∧ rulesGet (_adjust_for_empty_schedules ⟨some "s", some [ruleA]⟩) = [ruleA]
    ∧ rulesGet (_adjust_for_empty_schedules ⟨some "s", some [ruleNoTZ]⟩)
        = [{ ruleNoTZ with schedule := some ⟨some ["mon"], none, none, some "UTC"⟩ }] :=
  ⟨(C6_adjust_for_empty_schedules (some "s") ruleOnlyTZ).1 rfl,
    (C6_adjust_for_empty_schedules (some "s") ruleA).2.1 rfl,
    (C6_adjust_for_empty_schedules (some "s") ruleNoTZ).2.2
      ⟨some ["mon"], none, none, none⟩ rfl rfl (by decide)⟩

/-- C10: a schedule with a non-empty valid `day_of_week` and a non-empty
`hour_of_day_to` but with `hour_of_day_from` absent (missing, `None`, or
empty) is rejected by `_validate_schedule` with the invalid-from-time error,
even though the evaluator `is_scheduled` treats an absent start time exactly
as `"00:00:00"`. -/
theorem C10_to_without_from_rejected (d : SchedDict) (dow : List String) (ts : String)
    (hdow : d.day_of_week = some dow) (hne : dow ≠ [])
    (hvalid : Weekdays.is_valid_schedule dow = true)
    (hfrom : truthyS d.hour_of_day_from.join = false)
    (hto : d.hour_of_day_to.join = some ts) (htne : ts ≠ "") :
    _validate_schedule (some d) = .error .invalidFromTime
    ∧ ∀ (tzConv : String → LocalDT → LocalDT) (now : LocalDT) (r : RuleDict),
        r.schedule = some d →
        is_scheduled tzConv now r
          = is_scheduled tzConv now
              { r with schedule := some ({ d with hour_of_day_from := some (some "00:00:00") }) } := by
  have hsome : d.hour_of_day_to.isSome = true := by
    cases hx : d.hour_of_day_to with
    | none => rw [hx] at hto; exact absurd hto (by simp [Option.join])
    | some v => rfl
  have hto1 : (if d.hour_of_day_to.isSome then 1 else 0) = 1 := by rw [hsome]; rfl
  have hlen1 : 0 < schedLen d := by
    unfold schedLen
    rw [hto1]
    omega
  have hlen : ¬ (schedLen d = 0 ∨ d.day_of_week = none ∨ d.day_of_week.getD [] = []) := by
    push_neg
    exact ⟨by omega, by simp [hdow], by simp [hdow, hne]⟩
  have hfromNone : parseHMSOpt d.hour_of_day_from.join = none := by
    cases hx : d.hour_of_day_from.join with
    | none => rfl
    | some v =>
      rw [hx] at hfrom
      simp only [truthyS, decide_eq_false_iff_not, not_not] at hfrom
      rw [hfrom]
      rfl
  have htoTruthy : truthyS d.hour_of_day_to.join = true := by
    rw [hto]
    simp [truthyS, htne]
  constructor
  · simp only [_validate_schedule]
    rw [if_neg hlen, if_neg (by simp [hdow, hvalid]), if_pos (Or.inr htoTruthy), hfromNone]
  · intro tzConv now r hr
    have hlen2 : 0 < schedLen ({ d with hour_of_day_from := some (some "00:00:00") }) := by
      simp [schedLen]
    have hstr : (match d.hour_of_day_from.join with
        | some s => if s = "" then "00:00:00" else s
        | none => "00:00:00") = "00:00:00" := by
      cases hx : d.hour_of_day_from.join with
      | none => rfl
      | some v =>
        rw [hx] at hfrom
        simp only [truthyS, decide_eq_false_iff_not, not_not] at hfrom
        simp [hfrom]
    unfold is_scheduled
    rw [hr]
    simp only [if_pos hlen1, if_pos hlen2, hstr]
    rfl

/-- C10 (witness): the theorem at the concrete end-time-only schedule. -/
theorem C10_witness :
    _validate_schedule (some schedToOnly) = .error .invalidFromTime :=
  (C10_to_without_from_rejected schedToOnly ["mon"] "10:00:00" rfl (by decide)
    (by decide) rfl rfl (by decide)).1

/-- C2 (counterexample): validation is not "all structural checks before any
schedule validation": `c2scheme`, whose first rule has an unrecognized day
name in its schedule and whose second rule is missing its name, is rejected
by `on_create` with the first rule's schedule error, not with the
missing-name error the claim requires. -/
theorem C2_counterexample :
    on_create c2scheme = .error .invalidDayOfWeek
    ∧ on_create c2scheme ≠ .error .missingRuleName := by
  have h : on_create c2scheme = .error .invalidDayOfWeek := by rfl
  refine ⟨h, ?_⟩
  rw [h]
  intro hc
  injection hc with hv
  exact ValErr.noConfusion hv

/-- C2 (amended): `on_create` and `on_update` either accept the whole scheme
or reject it with the first violation encountered in per-rule order: the
rules are validated one at a time, each rule undergoing its structural
checks (unknown fields, missing name, missing actions) followed immediately
by its own schedule validation, and name-uniqueness is checked only after
every rule passes; hence a scheme whose first rule passes its structural
checks but has an invalid schedule is rejected with that schedule error no
matter what violations (such as a missing name) later rules contain. -/
theorem C2_first_violation_per_rule (s orig : SchemeDict) (nm : Option String)
    (r1 : RuleDict) (rest : List RuleDict) (e : ValErr)
    (hadj : _adjust_for_empty_schedules s = ⟨nm, some (r1 :: rest)⟩)
    (hfields : invalidFieldsOf r1 = [])
    (hname : r1.name ≠ none)
    (hacts : actionsMissing r1 = false)
    (hsched : _validate_schedule r1.schedule = .error e) :
    _validate_routing_scheme ⟨nm, some (r1 :: rest)⟩ = .error e
    ∧ on_create s = .error e ∧ on_update s orig = .error e := by
  have hrule : validate_rule r1 = .error e := by
    unfold validate_rule
    rw [if_neg (by simp [hfields]), if_neg (by simp [hname]), if_neg (by simp [hacts])]
    exact hsched
  have hval : _validate_routing_scheme ⟨nm, some (r1 :: rest)⟩ = .error e := by
    have hrg : rulesGet ⟨nm, some (r1 :: rest)⟩ = r1 :: rest := rfl
    unfold _validate_routing_scheme
    rw [hrg, if_neg (by simp)]
    unfold validateRules
    rw [hrule]
  refine ⟨hval, ?_, ?_⟩
  · unfold on_create
    rw [hadj, hval]
  · unfold on_update
    rw [hadj, hval]

/-- C2 (witness): the amended precedence at the concrete scheme. -/
theorem C2_witness : on_create c2scheme = .error .invalidDayOfWeek :=
  (C2_first_violation_per_rule c2scheme c2scheme (some "scheme") c2rule1 [c2rule2]
    .invalidDayOfWeek rfl rfl (by simp [c2rule1]) rfl rfl).2.1

/-- C8: a scheme whose (schedule-normalized) rules pass structural and
schedule validation but contain two rules at distinct positions with the
same name is rejected by both `on_create` and `on_update` with the
duplicate-rule-name error, whatever the surrounding rules `l1`, `l2`, `l3`
are. -/
theorem C8_duplicate_names_rejected (s orig : SchemeDict)
    (l1 l2 l3 : List RuleDict) (r1 r2 : RuleDict)
    (hval : _validate_routing_scheme (_adjust_for_empty_schedules s) = .ok ())
    (hrules : rulesGet (_adjust_for_empty_schedules s) = l1 ++ r1 :: (l2 ++ r2 :: l3))
    (hname : r1.name = r2.name) :
    on_create s = .error .duplicateRuleName
    ∧ on_update s orig = .error .duplicateRuleName := by
  have hmem : r1 ∈ rulesGet (_adjust_for_empty_schedules s) := by
    rw [hrules]
    exact List.mem_append_right _ (List.mem_cons_self _ _)
  have hpred : decide (1 < ((rulesGet (_adjust_for_empty_schedules s)).filter
      (fun r2x => decide (r2x.name = r1.name))).length) = true := by
    have e2 : r2.name = r1.name := hname.symm
    rw [decide_eq_true_eq, hrules]
    simp [List.filter_append, List.filter_cons, e2]
    omega
  have hcheck : _check_if_rule_name_is_unique (_adjust_for_empty_schedules s)
      = .error .duplicateRuleName := by
    unfold _check_if_rule_name_is_unique
    rw [if_pos (List.any_eq_true.mpr ⟨r1, hmem, hpred⟩)]
  constructor
  · unfold on_create
    rw [hval, hcheck]
  · unfold on_update
    rw [hval, hcheck]

/-- C8 (witness): the duplicate-name rejection at a concrete two-rule
scheme. -/
theorem C8_witness : on_create dupScheme = .error .duplicateRuleName :=
  (C8_duplicate_names_rejected dupScheme dupScheme [] [] [] ruleX ruleX rfl rfl rfl).1

/-- Splitting a routing pass: if a prefix of the scheduled rules runs to
completion (no exit, no failure), running the whole list first produces the
prefix trace, then continues with the remainder. -/
theorem runRules_append_of_completed (canH doesM : RuleDict → Bool)
    (fails : RuleDict → Option String) (l1 l2 : List RuleDict) (tr : List REv)
    (h : runRules canH doesM fails l1 = (tr, .completed)) :
    runRules canH doesM fails (l1 ++ l2)
      = (tr ++ (runRules canH doesM fails l2).1, (runRules canH doesM fails l2).2) := by
  induction l1 generalizing tr with
  | nil =>
    simp only [runRules] at h
    injection h with h1 h2
    subst h1
    simp
  | cons a l1 ih =>
    rcases hp : runRules canH doesM fails l1 with ⟨t1, o1⟩
    by_cases hca : canH a = true
    · by_cases hm : doesM a = true
      · cases hf : fails a with
        | some e =>
          simp only [runRules, hca, hm, hf, if_true] at h
          injection h with h1 h2
          exact Outcome.noConfusion h2
        | none =>
          by_cases hex : exitFlag a = true
          · simp only [runRules, hca, hm, hf, hex, if_true] at h
            injection h with h1 h2
            exact Outcome.noConfusion h2
          · simp only [runRules, hca, hm, hf, hex, if_true, if_false, hp] at h
            injection h with h1 h2
            subst h1
            have := ih t1 (by rw [hp, h2])
            simp [runRules, hca, hm, hf, hex, this, List.append_eq]
      · simp only [runRules, hca, hm, if_true, if_false, hp] at h
        injection h with h1 h2
        subst h1
        have := ih t1 (by rw [hp, h2])
        simp [runRules, hca, hm, this, List.append_eq]
    · simp only [runRules, hca, if_false, hp] at h
      injection h with h1 h2
      subst h1
      have := ih t1 (by rw [hp, h2])
      simp [runRules, hca, this, List.append_eq]

/-- In a routing pass, a rule whose handler cannot handle the item is never
asked for a filter match and never has `apply_rule` invoked, whatever the
rule list is. -/
theorem runRules_skips_unhandled (canH doesM : RuleDict → Bool)
    (fails : RuleDict → Option String) (r : RuleDict) (h : canH r = false) :
    ∀ l : List RuleDict,
      REv.doesMatchQ r ∉ (runRules canH doesM fails l).1
      ∧ REv.applyR r ∉ (runRules canH doesM fails l).1 := by
  intro l
  induction l with
  | nil => simp [runRules]
  | cons a rest ih =>
    have hne : canH a = true → a ≠ r := by
      intro hca he
      rw [he, h] at hca
      cases hca
    by_cases hca : canH a = true
    · have har : a ≠ r := hne hca
      have har2 : r ≠ a := Ne.symm har
      by_cases hm : doesM a = true
      · cases hf : fails a with
        | some e =>
          simp only [runRules, hca, hm, hf, if_true]
          simp [har, har2]
        | none =>
          by_cases hex : exitFlag a = true
          · simp only [runRules, hca, hm, hf, hex, if_true]
            simp [har, har2]
          · rcases hp : runRules canH doesM fails rest with ⟨t1, o1⟩
            rw [hp] at ih
            simp only [runRules, hca, hm, hf, hex, if_true, if_false, hp]
            simp_all [har, har2]
      · rcases hp : runRules canH doesM fails rest with ⟨t1, o1⟩
        rw [hp] at ih
        simp only [runRules, hca, hm, if_true, if_false, hp]
        simp_all [har, har2]
    · rcases hp : runRules canH doesM fails rest with ⟨t1, o1⟩
      rw [hp] at ih
      simp only [runRules, hca, if_false, hp]
      simp_all

/-- C4: with rules `[A(exit=false), B(exit=true), C]` all scheduled, all
handled, all matching and none failing, the routing pass applies `A` then
`B` in that order and exits; `apply_rule` is never invoked for `C`. The
trace equality shows each of `A`, `B` is applied exactly once. -/
theorem C4_exit_short_circuit (tzConv : String → LocalDT → LocalDT)
    (canH doesM : RuleDict → Bool) (fails : RuleDict → Option String)
    (A B C : RuleDict) (nm : Option String) (now : LocalDT)
    (hA : is_scheduled tzConv now A = some true)
    (hB : is_scheduled tzConv now B = some true)
    (hC : is_scheduled tzConv now C = some true)
    (hcanA : canH A = true) (hcanB : canH B = true) (_hcanC : canH C = true)
    (hmA : doesM A = true) (hmB : doesM B = true) (_hmC : doesM C = true)
    (hfA : fails A = none) (hfB : fails B = none)
    (hexA : exitFlag A = false) (hexB : exitFlag B = true)
    (hCA : C ≠ A) (hCB : C ≠ B) :
    apply_routing_scheme tzConv canH doesM fails ⟨nm, some [A, B, C]⟩ now
      = some ([.canHandleQ A, .doesMatchQ A, .applyR A,
               .canHandleQ B, .doesMatchQ B, .applyR B], .exited)
    ∧ REv.applyR C ∉ [REv.canHandleQ A, REv.doesMatchQ A, REv.applyR A,
        REv.canHandleQ B, REv.doesMatchQ B, REv.applyR B] := by
  constructor
  · unfold apply_routing_scheme
    have hsch : _get_scheduled_routing_rules tzConv (rulesGet ⟨nm, some [A, B, C]⟩) now
        = some [A, B, C] := by
      simp only [rulesGet, Option.getD_some, _get_scheduled_routing_rules, hA, hB, hC]
      rfl
    rw [hsch]
    simp only [Option.map_some']
    simp [runRules, hcanA, hmA, hfA, hexA, hcanB, hmB, hfB, hexB]
  · simp [hCA, hCB]

/-- C4 (witness): the short-circuit at three concrete unscheduled-free
rules. -/
theorem C4_witness :
    apply_routing_scheme tzId canAlways matchAlways noFailures
        ⟨some "s", some [ruleA, ruleB, ruleC]⟩ ⟨0, 0⟩
      = some ([.canHandleQ ruleA, .doesMatchQ ruleA, .applyR ruleA,
               .canHandleQ ruleB, .doesMatchQ ruleB, .applyR ruleB], .exited) :=
  (C4_exit_short_circuit tzId canAlways matchAlways noFailures ruleA ruleB ruleC
    (some "s") ⟨0, 0⟩ rfl rfl rfl rfl rfl rfl rfl rfl rfl rfl rfl rfl rfl
    (by decide) (by decide)).1

/-- C5: during a routing pass, a scheduled rule whose handler's `can_handle`
returns false is recorded only as a `can_handle` query — its filter is never
queried, `apply_rule` is never invoked for it — and routing continues with
the remaining scheduled rules exactly as if they were the whole list. -/
theorem C5_unhandled_rule_skipped (canH doesM : RuleDict → Bool)
    (fails : RuleDict → Option String) (r : RuleDict)
    (h : canH r = false) :
    (∀ rest : List RuleDict,
        runRules canH doesM fails (r :: rest)
          = (.canHandleQ r :: (runRules canH doesM fails rest).1,
              (runRules canH doesM fails rest).2))
    ∧ ∀ (tzConv : String → LocalDT → LocalDT) (scheme : SchemeDict) (now : LocalDT)
        (tr : List REv) (o : Outcome),
        apply_routing_scheme tzConv canH doesM fails scheme now = some (tr, o) →
        REv.doesMatchQ r ∉ tr ∧ REv.applyR r ∉ tr := by
  constructor
  · intro rest
    rcases hp : runRules canH doesM fails rest with ⟨t1, o1⟩
    simp [runRules, h, hp]
  · intro tzConv scheme now tr o happ
    unfold apply_routing_scheme at happ
    rcases hg : _get_scheduled_routing_rules tzConv (rulesGet scheme) now with _ | l
    · rw [hg] at happ; cases happ
    · rw [hg] at happ
      simp only [Option.map_some', Option.some.injEq] at happ
      have := runRules_skips_unhandled canH doesM fails r h l
      rw [happ] at this
      exact this

/-- C5 (witness): the skip at a concrete one-rule scheme whose handler
rejects everything. -/
theorem C5_witness :
    runRules canNever matchAlways noFailures [ruleA]
      = ([.canHandleQ ruleA], .completed) := by
  have h := (C5_unhandled_rule_skipped canNever matchAlways noFailures ruleA rfl).1 []
  simpa [runRules] using h

/-- C9: if `apply_rule` raises while the routing pass is processing a
scheduled rule `r` (the scheduled prefix before `r` having completed
normally), the failure propagates to the caller of `apply_routing_scheme`
unchanged, and the trace ends at the single `apply_rule` invocation of `r`:
no later scheduled rule is queried for `can_handle`, filter match, or
`apply_rule`, and nothing is retried or rolled back. -/
theorem C9_handler_failure_propagates (tzConv : String → LocalDT → LocalDT)
    (canH doesM : RuleDict → Bool) (fails : RuleDict → Option String)
    (scheme : SchemeDict) (now : LocalDT) (pre rest : List RuleDict)
    (r : RuleDict) (tr : List REv) (e : String)
    (hsch : _get_scheduled_routing_rules tzConv (rulesGet scheme) now
      = some (pre ++ r :: rest))
    (hpre : runRules canH doesM fails pre = (tr, .completed))
    (hcan : canH r = true) (hm : doesM r = true) (hfail : fails r = some e) :
    apply_routing_scheme tzConv canH doesM fails scheme now
      = some (tr ++ [.canHandleQ r, .doesMatchQ r, .applyR r], .failed e) := by
  unfold apply_routing_scheme
  rw [hsch]
  simp only [Option.map_some', Option.some.injEq]
  rw [runRules_append_of_completed canH doesM fails pre (r :: rest) tr hpre]
  simp [runRules, hcan, hm, hfail]

/-- C9 (witness): a concrete failing handler aborts the pass. -/
theorem C9_witness :
    apply_routing_scheme tzId canAlways matchAlways failsOnA
        ⟨some "s", some [ruleA, ruleC]⟩ ⟨0, 0⟩
      = some ([.canHandleQ ruleA, .doesMatchQ ruleA, .applyR ruleA], .failed "boom") := by
  have h := C9_handler_failure_propagates tzId canAlways matchAlways failsOnA
    ⟨some "s", some [ruleA, ruleC]⟩ ⟨0, 0⟩ [] [ruleC] ruleA [] "boom"
    rfl rfl rfl rfl rfl
  simpa using h

/-- Comparing an instant against a same-day start bound reduces to the
second-of-day comparison. -/
theorem ldtLE_sameday (a : LocalDT) (f : Nat) :
    ldtLE ⟨a.day, f⟩ a = decide (f ≤ a.sod) :=
  decide_eq_decide.mpr (by
    constructor
    · rintro (h | ⟨-, h⟩)
      · exact absurd h (lt_irrefl _)
      · exact h
    · intro h
      exact Or.inr ⟨rfl, h⟩)

/-- Comparing an instant against a same-day end bound reduces to the
second-of-day comparison. -/
theorem ldtLT_sameday (a : LocalDT) (t : Nat) :
    ldtLT a ⟨a.day, t⟩ = decide (a.sod < t) :=
  decide_eq_decide.mpr (by
    constructor
    · rintro (h | ⟨-, h⟩)
      · exact absurd h (lt_irrefl _)
      · exact h
    · intro h
      exact Or.inr ⟨rfl, h⟩)

/-- Comparing a well-formed instant against a same-day end bound pushed one
minute later reduces to the second-of-day comparison, also when the bound
rolls over midnight. -/
theorem ldtLT_addMinute (a : LocalDT) (t : Nat) (hsod : a.sod < 86400) :
    ldtLT a (addMinute ⟨a.day, t⟩) = decide (a.sod < t + 60) := by
  unfold addMinute
  dsimp only
  split_ifs with h60
  · exact ldtLT_sameday a (t + 60)
  · exact decide_eq_decide.mpr (by
      constructor
      · intro _
        omega
      · intro _
        exact Or.inl (show a.day < a.day + 1 by omega))

/-- C1: for a rule whose schedule has valid `HH:MM:SS` values for
`hour_of_day_from` and `hour_of_day_to` with from at most to, and whose
`day_of_week` matches the weekday of the zone-adjusted instant, the rule is
in the scheduled set exactly when the zone-adjusted second of day lies in
`[from, to)`, except that when the last two characters of the end string are
`"00"` (its seconds component) the upper bound is `to` plus one minute. -/
theorem C1_time_window (tzConv : String → LocalDT → LocalDT) (r : RuleDict)
    (d : SchedDict) (fs ts : String) (f t : Nat) (now : LocalDT)
    (hsch : r.schedule = some d)
    (hf : d.hour_of_day_from.join = some fs) (hpf : parseHMS fs = some f)
    (ht : d.hour_of_day_to.join = some ts) (hpt : parseHMS ts = some t)
    (_hft : f ≤ t)
    (hday : Weekdays.is_scheduled_day (tzAdjust tzConv d.time_zone now)
        (d.day_of_week.getD []) = some true)
    (hsod : (tzAdjust tzConv d.time_zone now).sod < 86400) :
    _get_scheduled_routing_rules tzConv [r] now
      = some (if f ≤ (tzAdjust tzConv d.time_zone now).sod
              ∧ (tzAdjust tzConv d.time_zone now).sod
                  < t + (if lastTwo ts = "00".toList then 60 else 0)
            then [r] else []) := by
  have hfs : fs ≠ "" := by
    intro he
    rw [he] at hpf
    exact Option.noConfusion hpf
  have hts : ts ≠ "" := by
    intro he
    rw [he] at hpt
    exact Option.noConfusion hpt
  have hfsome : d.hour_of_day_from.isSome = true := by
    cases hx : d.hour_of_day_from with
    | none => rw [hx] at hf; exact absurd hf (by simp [Option.join])
    | some v => rfl
  have hf1 : (if d.hour_of_day_from.isSome then 1 else 0) = 1 := by rw [hfsome]; rfl
  have hlen : 0 < schedLen d := by
    unfold schedLen
    rw [hf1]
    omega
  have hstr : (match d.hour_of_day_from.join with
      | some s => if s = "" then "00:00:00" else s
      | none => "00:00:00") = fs := by
    rw [hf]
    simp [hfs]
  have hfromT : set_time (tzAdjust tzConv d.time_zone now) fs
      = some ⟨(tzAdjust tzConv d.time_zone now).day, f⟩ := by
    unfold set_time
    rw [hpf]
    rfl
  have htoT : set_time (tzAdjust tzConv d.time_zone now) ts
      = some ⟨(tzAdjust tzConv d.time_zone now).day, t⟩ := by
    unfold set_time
    rw [hpt]
    rfl
  have hisb : is_scheduled tzConv now r
      = some (true && (ldtLE ⟨(tzAdjust tzConv d.time_zone now).day, f⟩
          (tzAdjust tzConv d.time_zone now)
        && ldtLT (tzAdjust tzConv d.time_zone now)
          (if lastTwo ts = "00".toList
            then addMinute ⟨(tzAdjust tzConv d.time_zone now).day, t⟩
            else ⟨(tzAdjust tzConv d.time_zone now).day, t⟩))) := by
    simp only [is_scheduled, hsch, if_pos hlen, hstr, hfromT, ht, if_pos hts, htoT,
      Option.map_some', hday]
  simp only [_get_scheduled_routing_rules, hisb]
  have hle := ldtLE_sameday (tzAdjust tzConv d.time_zone now) f
  congr 1
  by_cases hl : lastTwo ts = "00".toList
  · rw [if_pos hl, if_pos hl]
    rw [hle, ldtLT_addMinute _ _ hsod]
    try simp [decide_eq_true_eq, Bool.and_eq_true]
  · rw [if_neg hl, if_neg hl]
    rw [hle, ldtLT_sameday]
    try simp [decide_eq_true_eq, Bool.and_eq_true]

set_option maxRecDepth 8192 in
/-- C1 (witness): with end time `"17:00:00"`, a Monday 09:00:00-17:00:00
UTC schedule includes the instant 17:00:59 and excludes 17:01:00. -/
theorem C1_witness :
    _get_scheduled_routing_rules tzId [ruleC1] ⟨0, 61259⟩ = some [ruleC1]
    ∧ _get_scheduled_routing_rules tzId [ruleC1] ⟨0, 61260⟩ = some [] := by
  have h1 := C1_time_window tzId ruleC1 schedC1 "09:00:00" "17:00:00" 32400 61200
    ⟨0, 61259⟩ rfl rfl rfl rfl rfl (by decide) rfl (by decide)
  have h2 := C1_time_window tzId ruleC1 schedC1 "09:00:00" "17:00:00" 32400 61200
    ⟨0, 61260⟩ rfl rfl rfl rfl rfl (by decide) rfl (by decide)
  constructor
  · rw [h1, if_pos (by decide)]
  · rw [h2, if_neg (by decide)]

/-- C7: a rule whose schedule covers all seven weekdays and gives no hour
bounds (whatever its time zone) is always in the scheduled set: whenever
`_get_scheduled_routing_rules` succeeds on a rule list containing it, the
output contains it. -/
theorem C7_full_week_always_scheduled (tzConv : String → LocalDT → LocalDT)
    (r : RuleDict) (d : SchedDict) (dow : List String) (now : LocalDT)
    (rules out : List RuleDict)
    (hsch : r.schedule = some d)
    (hdow : d.day_of_week = some dow)
    (hvalid : Weekdays.is_valid_schedule dow = true)
    (hcover : ∀ k : Fin 7, (k : Nat) ∈ dow.filterMap Weekdays.dayIndex?)
    (hfrom : d.hour_of_day_from = none) (hto : d.hour_of_day_to = none)
    (hmem : r ∈ rules)
    (hout : _get_scheduled_routing_rules tzConv rules now = some out) :
    r ∈ out := by
  have hd1 : (if d.day_of_week.isSome then 1 else 0) = 1 := by rw [hdow]; rfl
  have hlen : 0 < schedLen d := by
    unfold schedLen
    rw [hd1]
    omega
  have h000 : ∀ b : LocalDT, set_time b "00:00:00" = some ⟨b.day, 0⟩ := by
    intro b
    unfold set_time
    rw [show parseHMS "00:00:00" = some 0 from rfl]
    rfl
  have h2359 : ∀ b : LocalDT, set_time b "23:59:59" = some ⟨b.day, 86399⟩ := by
    intro b
    unfold set_time
    rw [show parseHMS "23:59:59" = some 86399 from rfl]
    rfl
  have hAdd : ∀ b : LocalDT, addMinute ⟨b.day, 86399⟩ = ⟨b.day + 1, 59⟩ := by
    intro b
    unfold addMinute
    norm_num
  have hdayM : ∀ b : LocalDT, Weekdays.is_scheduled_day b dow = some true := by
    intro b
    rw [Weekdays.is_scheduled_day, lookupDays_of_valid dow hvalid]
    simp only [Option.map_some', Option.some.injEq, decide_eq_true_eq]
    exact hcover ⟨b.weekday, Nat.mod_lt _ (by norm_num)⟩
  have hsched : is_scheduled tzConv now r = some true := by
    simp only [is_scheduled, hsch, if_pos hlen, hfrom, hto, Option.join, h000, h2359,
      Option.map_some', hAdd, hdow, Option.getD_some, hdayM, Option.bind]
    have hle : ldtLE ⟨(tzAdjust tzConv d.time_zone now).day, 0⟩
        (tzAdjust tzConv d.time_zone now) = true := by
      rw [ldtLE_sameday]
      simp
    have hlt : ldtLT (tzAdjust tzConv d.time_zone now)
        ⟨(tzAdjust tzConv d.time_zone now).day + 1, 59⟩ = true := by
      unfold ldtLT
      rw [decide_eq_true_eq]
      exact Or.inl (show (tzAdjust tzConv d.time_zone now).day
        < (tzAdjust tzConv d.time_zone now).day + 1 by omega)
    rw [hle, hlt]
    rfl
  induction rules generalizing out with
  | nil => exact absurd hmem (List.not_mem_nil r)
  | cons b rest ih =>
    simp only [_get_scheduled_routing_rules] at hout
    rcases hb : is_scheduled tzConv now b with _ | sb
    · rw [hb] at hout
      exact Option.noConfusion hout
    · rw [hb] at hout
      rcases hrest : _get_scheduled_routing_rules tzConv rest now with _ | outR
      · rw [hrest] at hout
        exact Option.noConfusion hout
      · rw [hrest] at hout
        injection hout with hout1
        rcases List.mem_cons.mp hmem with he | hm2
        · subst he
          rw [hsched] at hb
          injection hb with hb2
          rw [← hout1, ← hb2]
          simp
        · have hR := ih outR hm2 hrest
          rw [← hout1]
          by_cases hsb : sb = true
          · rw [if_pos hsb]
            exact List.mem_cons_of_mem b hR
          · rw [if_neg hsb]
            exact hR

set_option maxRecDepth 8192 in
/-- C7 (witness): the all-week rule is scheduled at an arbitrary instant. -/
theorem C7_witness :
    ruleAll ∈ (_get_scheduled_routing_rules tzId [ruleAll] ⟨5, 86399⟩).getD [] := by
  have hres : _get_scheduled_routing_rules tzId [ruleAll] ⟨5, 86399⟩ = some [ruleAll] := by
    decide
  have h := C7_full_week_always_scheduled tzId ruleAll schedAll
    ["mon", "tue", "wed", "thu", "fri", "sat", "sun"] ⟨5, 86399⟩ [ruleAll] [ruleAll]
    rfl rfl (by decide) (by decide) rfl rfl (List.mem_singleton.mpr rfl) hres
  rw [hres]
  exact h

end Routing
